import Mathlib

/-!
# BasScript core: shallow embedding and verification

A shallow embedding of the BasScript screenplay editor core
(`src/core/src/buffer.rs`, `src/core/src/parser.rs`, `src/core/src/model.rs`)
and proofs of the specified properties.

Modelling conventions:
* Rust `String` lines are modelled as `List Char`: `column` addressing in the
  source is in Unicode scalar values, and every splice first converts the
  character column to a byte index; in the character-list model that
  conversion (`char_to_byte_index`) clamps the column to the line length.
* Rust `usize` is modelled as `Nat` (documents are unbounded in the model;
  no operation here can overflow, and `saturating_add` / `saturating_sub`
  therefore never saturate, matching their use in the source).
-/

set_option autoImplicit false

namespace BasScript

/-- `Position` from `model.rs`: a line index and a character column. -/
structure Position where
  line : Nat
  column : Nat
deriving DecidableEq

/-- `Document` from `buffer.rs`: an ordered sequence of text lines. -/
structure Document where
  lines : List (List Char)
deriving DecidableEq

namespace Document

/-- `Document::new`: exactly one empty line. -/
def new : Document := ⟨[[]]⟩

/-- `char_count` from `buffer.rs`: `input.chars().count()`; in the
character-list model this is the list length. -/
def char_count (input : List Char) : Nat := input.length

/-- `char_to_byte_index` from `buffer.rs`: the byte offset of the `column`-th
character, or the end of the line when `column` exceeds the character count.
In the character-list model, positions in the line are character indices, so
this is the column clamped to the line length. -/
def char_to_byte_index (input : List Char) (column : Nat) : Nat :=
  min column input.length

/-- Rust `char::is_whitespace`: the Unicode `White_Space` code points. -/
def is_rust_whitespace (c : Char) : Bool :=
  (0x9 ≤ c.toNat && c.toNat ≤ 0xD) || c.toNat = 0x20 || c.toNat = 0x85 ||
    c.toNat = 0xA0 || c.toNat = 0x1680 ||
    (0x2000 ≤ c.toNat && c.toNat ≤ 0x200A) || c.toNat = 0x2028 ||
    c.toNat = 0x2029 || c.toNat = 0x202F || c.toNat = 0x205F ||
    c.toNat = 0x3000

/-- Rust `str::trim_end_matches('\r')` as used in `Document::from_text`:
removes every trailing `'\r'`. -/
def trim_end_matches_cr (l : List Char) : List Char :=
  (l.reverse.dropWhile (fun c => c = '\r')).reverse

/-- Rust `text.split('\n')`: splits at every separator; an empty input gives
one empty segment, and a trailing separator gives a trailing empty segment. -/
def splitOnChar (sep : Char) : List Char → List (List Char)
  | [] => [[]]
  | c :: rest =>
    if c = sep then [] :: splitOnChar sep rest
    else
      match splitOnChar sep rest with
      | [] => [[c]]
      | h :: t => (c :: h) :: t

/-- Rust `Vec::<String>::join("\n")` as used in `Document::to_text`. -/
def joinLines : List (List Char) → List Char
  | [] => []
  | [l] => l
  | l :: l2 :: ls => l ++ '\n' :: joinLines (l2 :: ls)

/-- `Document::from_text`: split on `'\n'`, strip trailing `'\r'` from each
segment, and guarantee at least one line. -/
def from_text (text : List Char) : Document :=
  let lines := (splitOnChar '\n' text).map trim_end_matches_cr
  if lines = [] then ⟨[[]]⟩ else ⟨lines⟩

/-- `Document::to_text`: lines rejoined with `"\n"`. -/
def to_text (d : Document) : List Char := joinLines d.lines

/-- `Document::line_count`. -/
def line_count (d : Document) : Nat := d.lines.length

/-- `Document::is_empty`: exactly one line and it is empty. -/
def is_empty (d : Document) : Bool :=
  d.lines.length = 1 && (d.lines.headD []).isEmpty

/-- `Document::line`: the line text, or nothing when out of range. -/
def line (d : Document) (i : Nat) : Option (List Char) := d.lines[i]?

/-- `Document::line_len_chars`: character count of a line, 0 if out of range. -/
def line_len_chars (d : Document) (i : Nat) : Nat :=
  match d.line i with
  | none => 0
  | some l => char_count l

/-- `Document::clamp_position`: clamp `line` to `[0, line_count-1]` and
`column` to `[0, line_len_chars(line)]` (`line_count - 1` is a
`saturating_sub`). -/
def clamp_position (d : Document) (position : Position) : Position :=
  let last_line := d.line_count - 1
  let l := min position.line last_line
  let max_col := d.line_len_chars l
  ⟨l, min position.column max_col⟩

/-- `Document::move_left`. -/
def move_left (d : Document) (position : Position) : Position :=
  if 0 < position.column then
    ⟨position.line, position.column - 1⟩
  else if position.line = 0 then
    position
  else
    let previous_line := position.line - 1
    ⟨previous_line, d.line_len_chars previous_line⟩

/-- `Document::move_right`. -/
def move_right (d : Document) (position : Position) : Position :=
  let line_len := d.line_len_chars position.line
  if position.column < line_len then
    ⟨position.line, position.column + 1⟩
  else
    let next_line := position.line + 1
    if next_line < d.line_count then ⟨next_line, 0⟩ else position

/-- `Document::move_up`. -/
def move_up (d : Document) (position : Position) (preferred_column : Nat) :
    Position :=
  if position.line = 0 then position
  else
    let l := position.line - 1
    ⟨l, min preferred_column (d.line_len_chars l)⟩

/-- `Document::move_down`. -/
def move_down (d : Document) (position : Position) (preferred_column : Nat) :
    Position :=
  let next_line := position.line + 1
  if d.line_count ≤ next_line then position
  else ⟨next_line, min preferred_column (d.line_len_chars next_line)⟩

/-- `Vec::insert(i, x)` in the list model (the source only calls it with
`i ≤ length`). -/
def insertAt {α : Type} (xs : List α) (i : Nat) (x : α) : List α :=
  xs.take i ++ x :: xs.drop i

/-- `Vec::remove(i)` in the list model (the source only calls it with
`i < length`). -/
def removeAt {α : Type} (xs : List α) (i : Nat) : List α :=
  xs.take i ++ xs.drop (i + 1)

/-- `Document::insert_char`: clamp, splice the character in at the cursor,
return the position one column right. Mutation is modelled by returning the
new document alongside the new position. -/
def insert_char (d : Document) (position : Position) (ch : Char) :
    Document × Position :=
  let p := d.clamp_position position
  let l := (d.lines[p.line]?).getD []
  let byte_index := char_to_byte_index l p.column
  (⟨d.lines.set p.line (l.take byte_index ++ ch :: l.drop byte_index)⟩,
    ⟨p.line, p.column + 1⟩)

/-- `Document::insert_newline`: clamp, split the current line at the cursor
(`String::split_off`), insert the tail as a new following line, return the
start of that line. -/
def insert_newline (d : Document) (position : Position) :
    Document × Position :=
  let p := d.clamp_position position
  let l := (d.lines[p.line]?).getD []
  let byte_index := char_to_byte_index l p.column
  let tail := l.drop byte_index
  (⟨insertAt (d.lines.set p.line (l.take byte_index)) (p.line + 1) tail⟩,
    ⟨p.line + 1, 0⟩)

/-- The loop body of `Document::insert_text`: dispatch `'\n'` to
`insert_newline` and every other character to `insert_char`. -/
def insert_text_step (dp : Document × Position) (ch : Char) :
    Document × Position :=
  if ch = '\n' then dp.1.insert_newline dp.2 else dp.1.insert_char dp.2 ch

/-- `Document::insert_text`: clamp once, then iterate the input characters,
dispatching `'\n'` to `insert_newline` and the rest to `insert_char`. -/
def insert_text (d : Document) (position : Position) (input : List Char) :
    Document × Position :=
  let p := d.clamp_position position
  input.foldl insert_text_step (d, p)

/-- `Document::backspace`: clamp; delete the character before the cursor, or
at column 0 of a non-first line merge the current line into the previous
one; no-op at the document start. -/
def backspace (d : Document) (position : Position) : Document × Position :=
  let p := d.clamp_position position
  if 0 < p.column then
    let l := (d.lines[p.line]?).getD []
    let s := char_to_byte_index l (p.column - 1)
    let e := char_to_byte_index l p.column
    (⟨d.lines.set p.line (l.take s ++ l.drop e)⟩, ⟨p.line, p.column - 1⟩)
  else if p.line = 0 then
    (d, p)
  else
    let current := (d.lines[p.line]?).getD []
    let rest := removeAt d.lines p.line
    let previous_line := p.line - 1
    let previous_len := char_count ((rest[previous_line]?).getD [])
    (⟨rest.set previous_line (((rest[previous_line]?).getD []) ++ current)⟩,
      ⟨previous_line, previous_len⟩)

/-- `Document::delete`: clamp; delete the character at the cursor, or at the
end of a non-last line merge the next line into the current one; no-op at
the document end. -/
def delete (d : Document) (position : Position) : Document × Position :=
  let p := d.clamp_position position
  let line_len := d.line_len_chars p.line
  if p.column < line_len then
    let l := (d.lines[p.line]?).getD []
    let s := char_to_byte_index l p.column
    let e := char_to_byte_index l (p.column + 1)
    (⟨d.lines.set p.line (l.take s ++ l.drop e)⟩, p)
  else if d.line_count ≤ p.line + 1 then
    (d, p)
  else
    let next := (d.lines[p.line + 1]?).getD []
    let rest := removeAt d.lines (p.line + 1)
    (⟨rest.set p.line (((rest[p.line]?).getD []) ++ next)⟩, p)

end Document

/-- A position is a valid address into a document: its line exists and its
column is at most that line's character count. -/
def ValidPos (d : Document) (p : Position) : Prop :=
  p.line < d.line_count ∧ p.column ≤ d.line_len_chars p.line

instance (d : Document) (p : Position) : Decidable (ValidPos d p) :=
  inferInstanceAs (Decidable (_ ∧ _))

/-- `LineKind` from `model.rs`. -/
inductive LineKind where
  | Empty
  | SceneHeading
  | Action
  | Character
  | Dialogue
  | Parenthetical
  | Transition
deriving DecidableEq

/-- `ParsedLine` from `model.rs`: the raw text paired with its kind. -/
structure ParsedLine where
  kind : LineKind
  raw : List Char
deriving DecidableEq

/-- Rust `char::to_uppercase`, which can expand one character to several
(Unicode `SpecialCasing`): the multi-character expansions modelled here are
U+00DF (ß → SS), U+0149, U+0587, and the U+FB00–FB06 / U+FB13–FB17
ligatures; for the remaining characters the model applies the single-character
ASCII mapping (`Char.toUpper`). Simple non-ASCII case mappings and the Greek
iota-subscript expansions are not enumerated: every theorem below that
depends on this function either restricts its input to ASCII or depends only
on characters whose mapping is covered here. -/
def rust_char_to_uppercase (c : Char) : List Char :=
  if c.toNat = 0xDF then ['S', 'S']
  else if c.toNat = 0x149 then [Char.ofNat 0x2BC, 'N']
  else if c.toNat = 0x587 then [Char.ofNat 0x535, Char.ofNat 0x552]
  else if c.toNat = 0xFB00 then ['F', 'F']
  else if c.toNat = 0xFB01 then ['F', 'I']
  else if c.toNat = 0xFB02 then ['F', 'L']
  else if c.toNat = 0xFB03 then ['F', 'F', 'I']
  else if c.toNat = 0xFB04 then ['F', 'F', 'L']
  else if c.toNat = 0xFB05 then ['S', 'T']
  else if c.toNat = 0xFB06 then ['S', 'T']
  else if c.toNat = 0xFB13 then [Char.ofNat 0x544, Char.ofNat 0x546]
  else if c.toNat = 0xFB14 then [Char.ofNat 0x544, Char.ofNat 0x535]
  else if c.toNat = 0xFB15 then [Char.ofNat 0x544, Char.ofNat 0x53B]
  else if c.toNat = 0xFB16 then [Char.ofNat 0x54E, Char.ofNat 0x546]
  else if c.toNat = 0xFB17 then [Char.ofNat 0x544, Char.ofNat 0x53D]
  else [c.toUpper]

/-- Rust `str::to_uppercase`: uppercase every character, concatenating the
(possibly multi-character) expansions. -/
def rust_to_uppercase (l : List Char) : List Char :=
  (l.map rust_char_to_uppercase).flatten

/-- Rust `str::trim_start`: drop leading whitespace. -/
def rust_trim_start (l : List Char) : List Char :=
  l.dropWhile (fun c => Document.is_rust_whitespace c)

/-- Rust `str::trim`: drop leading and trailing whitespace. -/
def rust_trim (l : List Char) : List Char :=
  ((rust_trim_start l).reverse.dropWhile
    (fun c => Document.is_rust_whitespace c)).reverse

/-- Word counter for Rust `str::split_whitespace().count()`: the flag records
whether the previous character was whitespace (or the start of the string),
so each whitespace-to-word transition counts one word. -/
def word_count_aux : Bool → List Char → Nat
  | _, [] => 0
  | prevWs, c :: rest =>
    if Document.is_rust_whitespace c then word_count_aux true rest
    else (if prevWs then 1 else 0) + word_count_aux false rest

/-- Rust `line.split_whitespace().count()` from `is_character`. -/
def word_count (l : List Char) : Nat := word_count_aux true l

/-- `is_scene_heading` from `parser.rs`: the trimmed-start, uppercased line
starts with one of the five scene markers. -/
def is_scene_heading (l : List Char) : Bool :=
  let upper := rust_to_uppercase (rust_trim_start l)
  ["INT.", "EXT.", "EST.", "INT/EXT.", "I/E."].any
    (fun p => p.toList.isPrefixOf upper)

/-- `is_transition` from `parser.rs`. -/
def is_transition (l : List Char) : Bool :=
  let upper := rust_to_uppercase l
  " TO:".toList.isSuffixOf upper || upper = "CUT TO:".toList ||
    upper = "FADE OUT.".toList || upper = "FADE TO BLACK.".toList

/-- `is_character` from `parser.rs`: at most 32 characters, 1–4 words, every
character an ASCII uppercase letter, ASCII digit or one of space, period,
parentheses, apostrophe, hyphen, and the line does not end with `':'`. -/
def is_character (l : List Char) : Bool :=
  if 32 < l.length then false
  else if word_count l = 0 || 4 < word_count l then false
  else if !(l.all fun ch =>
      (('A' ≤ ch && ch ≤ 'Z') || ('0' ≤ ch && ch ≤ '9') ||
        ch = ' ' || ch = '.' || ch = '(' || ch = ')' ||
        ch.toNat = 39 || ch = '-')) then false
  else l.getLast? ≠ some ':'

/-- `is_parenthetical` from `parser.rs`: starts with `'('` and ends with
`')'`. -/
def is_parenthetical (l : List Char) : Bool :=
  l.head? = some '(' && l.getLast? = some ')'

/-- `classify_line` from `parser.rs`: the priority-ordered classification of
one trimmed line, gated on the previous line's kind. -/
def classify_line (raw : List Char) (previous_kind : LineKind) : LineKind :=
  let trimmed := rust_trim raw
  if trimmed = [] then .Empty
  else if is_scene_heading trimmed then .SceneHeading
  else if is_transition trimmed then .Transition
  else if is_character trimmed then .Character
  else if is_parenthetical trimmed &&
      (previous_kind = .Character || previous_kind = .Dialogue ||
        previous_kind = .Parenthetical) then .Parenthetical
  else if previous_kind = .Character || previous_kind = .Dialogue ||
      previous_kind = .Parenthetical then .Dialogue
  else .Action

/-- The loop body of `parse_document`: fold over the lines carrying the
previous line's kind forward. -/
def parseLines (previous_kind : LineKind) : List (List Char) → List ParsedLine
  | [] => []
  | raw :: rest =>
    let kind := classify_line raw previous_kind
    ⟨kind, raw⟩ :: parseLines kind rest

/-- `parse_document` from `parser.rs`: one `ParsedLine` per document line, in
order, starting from a previous kind of `Empty`. -/
def parse_document (d : Document) : List ParsedLine :=
  parseLines .Empty d.lines

namespace ParsedLine

/-- `ParsedLine::indent_width` from `model.rs`. -/
def indent_width (pl : ParsedLine) : Nat :=
  match pl.kind with
  | .SceneHeading => 2
  | .Action => 0
  | .Character => 24
  | .Dialogue => 12
  | .Parenthetical => 18
  | .Transition => 40
  | .Empty => 0

/-- `ParsedLine::processed_text` from `model.rs`: indent spaces, then the raw
text, uppercased for scene headings, transitions and character cues. -/
def processed_text (pl : ParsedLine) : List Char :=
  let indent := List.replicate pl.indent_width ' '
  match pl.kind with
  | .SceneHeading | .Transition | .Character =>
    indent ++ rust_to_uppercase pl.raw
  | _ => indent ++ pl.raw

/-- `ParsedLine::processed_column` from `model.rs`: `saturating_add` of the
indent width (which never saturates over `Nat`). -/
def processed_column (pl : ParsedLine) (raw_column : Nat) : Nat :=
  pl.indent_width + raw_column

end ParsedLine

/-- The concrete six-line scenario from the specification. -/
def exampleLines : List (List Char) :=
  ["INT. COFFEE SHOP - DAY".toList, "".toList, "SARAH".toList,
    "(smiling)".toList, "It is just text.".toList, "CUT TO:".toList]

namespace Document

theorem clamp_position_line (d : Document) (p : Position) :
    (d.clamp_position p).line = min p.line (d.line_count - 1) := rfl

theorem clamp_position_column (d : Document) (p : Position) :
    (d.clamp_position p).column =
      min p.column (d.line_len_chars (min p.line (d.line_count - 1))) := rfl

theorem clamp_position_valid (d : Document) (p : Position)
    (h : 1 ≤ d.line_count) : ValidPos d (d.clamp_position p) := by
  refine ⟨?_, ?_⟩
  · rw [clamp_position_line]
    exact Nat.lt_of_le_of_lt (Nat.min_le_right _ _) (Nat.sub_lt h Nat.one_pos)
  · rw [clamp_position_column, clamp_position_line]
    exact Nat.min_le_right _ _

theorem clamp_position_idem (d : Document) (p : Position) :
    d.clamp_position (d.clamp_position p) = d.clamp_position p := by
  have hline : (d.clamp_position (d.clamp_position p)).line =
      (d.clamp_position p).line := by
    rw [clamp_position_line d (d.clamp_position p), clamp_position_line d p]
    exact min_eq_left (min_le_right _ _)
  have hcol : (d.clamp_position (d.clamp_position p)).column =
      (d.clamp_position p).column := by
    rw [clamp_position_column d (d.clamp_position p), clamp_position_line d p,
      min_eq_left (min_le_right p.line (d.line_count - 1)),
      clamp_position_column d p]
    exact min_eq_left (min_le_right _ _)
  cases hd : d.clamp_position (d.clamp_position p)
  cases hp : d.clamp_position p
  simp_all

end Document

theorem parseLines_length (prev : LineKind) (ls : List (List Char)) :
    (parseLines prev ls).length = ls.length := by
  induction ls generalizing prev with
  | nil => rfl
  | cons l rest ih => simpa [parseLines] using ih _

theorem parseLines_chain (ls : List (List Char)) :
    ∀ (prev : LineKind) (i : Nat) (pl : ParsedLine),
      (parseLines prev ls)[i + 1]? = some pl →
      ∃ pl', (parseLines prev ls)[i]? = some pl' ∧
        pl.kind = classify_line pl.raw pl'.kind := by
  induction ls with
  | nil => intro prev i pl h; simp [parseLines] at h
  | cons l rest ih =>
    intro prev i pl h
    rw [parseLines] at h ⊢
    rw [List.getElem?_cons_succ] at h
    cases i with
    | zero =>
      refine ⟨⟨classify_line l prev, l⟩, by simp, ?_⟩
      cases rest with
      | nil => simp [parseLines] at h
      | cons r rest' =>
        rw [parseLines, List.getElem?_cons_zero] at h
        cases h
        rfl
    | succ j =>
      obtain ⟨pl', h1, h2⟩ := ih (classify_line l prev) j pl h
      exact ⟨pl', by simpa using h1, h2⟩

theorem classify_line_dialogue_or_paren (raw : List Char) (prev : LineKind)
    (h : classify_line raw prev = .Dialogue ∨
      classify_line raw prev = .Parenthetical) :
    prev = .Character ∨ prev = .Dialogue ∨ prev = .Parenthetical := by
  by_cases hC : prev = LineKind.Character
  · exact Or.inl hC
  by_cases hD : prev = LineKind.Dialogue
  · exact Or.inr (Or.inl hD)
  by_cases hP : prev = LineKind.Parenthetical
  · exact Or.inr (Or.inr hP)
  exfalso
  unfold classify_line at h
  simp only [hC, hD, hP, decide_False, Bool.or_self, Bool.or_false,
    Bool.and_false, Bool.false_eq_true, if_false] at h
  by_cases h1 : rust_trim raw = [] <;> simp only [h1, if_true, if_false] at h
  · simp at h
  by_cases h2 : is_scene_heading (rust_trim raw) = true <;>
    simp only [h2, if_true, if_false] at h
  · simp at h
  by_cases h3 : is_transition (rust_trim raw) = true <;>
    simp only [h3, if_true, if_false] at h
  · simp at h
  by_cases h4 : is_character (rust_trim raw) = true <;>
    simp only [h4, if_true, if_false] at h
  · simp at h
  · simp at h

/-- C2: classifying the six-line example produces exactly the kind sequence
[SceneHeading, Empty, Character, Parenthetical, Dialogue, Transition], one
`ParsedLine` per input line, in order, with the raw text preserved. -/
theorem C2_concrete_classification :
    parse_document ⟨exampleLines⟩ =
      [⟨.SceneHeading, "INT. COFFEE SHOP - DAY".toList⟩,
        ⟨.Empty, "".toList⟩,
        ⟨.Character, "SARAH".toList⟩,
        ⟨.Parenthetical, "(smiling)".toList⟩,
        ⟨.Dialogue, "It is just text.".toList⟩,
        ⟨.Transition, "CUT TO:".toList⟩] := by decide

/-- C6: for every document with at least one line (every `Document` the code
can build) and every position, `clamp_position` is idempotent and its result
is a valid address: `line < line_count` and `column ≤ line_len_chars line`. -/
theorem C6_clamp_idempotent_valid (d : Document) (p : Position)
    (h : 1 ≤ d.line_count) :
    d.clamp_position (d.clamp_position p) = d.clamp_position p ∧
      ValidPos d (d.clamp_position p) :=
  ⟨d.clamp_position_idem p, d.clamp_position_valid p h⟩

theorem C6_witness :
    1 ≤ (Document.new).line_count ∧
      ((Document.new).clamp_position ((Document.new).clamp_position ⟨3, 5⟩) =
          (Document.new).clamp_position ⟨3, 5⟩ ∧
        ValidPos Document.new ((Document.new).clamp_position ⟨3, 5⟩)) :=
  ⟨by decide, C6_clamp_idempotent_valid Document.new ⟨3, 5⟩ (by decide)⟩

/-- C10: in every output of `parse_document`, a line classified Dialogue or
Parenthetical is never the first line and is immediately preceded by a line
classified Character, Dialogue, or Parenthetical. -/
theorem C10_dialogue_needs_context (d : Document) (i : Nat) (pl : ParsedLine)
    (hget : (parse_document d)[i]? = some pl)
    (hk : pl.kind = .Dialogue ∨ pl.kind = .Parenthetical) :
    0 < i ∧ ∃ pl', (parse_document d)[i - 1]? = some pl' ∧
      (pl'.kind = .Character ∨ pl'.kind = .Dialogue ∨
        pl'.kind = .Parenthetical) := by
  unfold parse_document at hget ⊢
  cases i with
  | zero =>
    exfalso
    cases hl : d.lines with
    | nil => rw [hl] at hget; simp [parseLines] at hget
    | cons l rest =>
      rw [hl, parseLines, List.getElem?_cons_zero] at hget
      cases hget
      have := classify_line_dialogue_or_paren l .Empty hk
      rcases this with h | h | h <;> exact absurd h (by simp)
  | succ j =>
    obtain ⟨pl', h1, h2⟩ := parseLines_chain d.lines .Empty j pl hget
    refine ⟨Nat.succ_pos j, pl', by simpa using h1, ?_⟩
    exact classify_line_dialogue_or_paren pl.raw pl'.kind (h2 ▸ hk)

theorem C10_witness :
    (parse_document ⟨exampleLines⟩)[4]? =
        some ⟨.Dialogue, "It is just text.".toList⟩ ∧
      (0 < 4 ∧ ∃ pl', (parse_document ⟨exampleLines⟩)[4 - 1]? = some pl' ∧
        (pl'.kind = .Character ∨ pl'.kind = .Dialogue ∨
          pl'.kind = .Parenthetical)) :=
  ⟨by decide,
    C10_dialogue_needs_context ⟨exampleLines⟩ 4
      ⟨.Dialogue, "It is just text.".toList⟩ (by decide) (Or.inl rfl)⟩

namespace Document

theorem splitOnChar_ne_nil (sep : Char) (l : List Char) :
    splitOnChar sep l ≠ [] := by
  induction l with
  | nil => simp [splitOnChar]
  | cons c rest ih =>
    unfold splitOnChar
    by_cases hc : c = sep
    · simp [hc]
    · simp only [hc, if_false]
      cases hs : splitOnChar sep rest <;> simp

theorem mem_of_mem_splitOnChar (sep : Char) :
    ∀ (l seg : List Char), seg ∈ splitOnChar sep l → ∀ c ∈ seg, c ∈ l := by
  intro l
  induction l with
  | nil =>
    intro seg hseg c hc
    simp [splitOnChar] at hseg
    subst hseg
    simp at hc
  | cons a rest ih =>
    intro seg hseg c hc
    unfold splitOnChar at hseg
    by_cases ha : a = sep
    · simp only [ha, if_true] at hseg
      rcases List.mem_cons.mp hseg with h | h
      · subst h; simp at hc
      · exact List.mem_cons_of_mem _ (ih seg h c hc)
    · simp only [ha, if_false] at hseg
      cases hs : splitOnChar sep rest with
      | nil => exact absurd hs (splitOnChar_ne_nil sep rest)
      | cons s t =>
        rw [hs] at hseg
        rcases List.mem_cons.mp hseg with h | h
        · subst h
          rcases List.mem_cons.mp hc with h | h
          · subst h; exact List.mem_cons_self _ _
          · refine List.mem_cons_of_mem _ (ih s ?_ c h)
            rw [hs]; exact List.mem_cons_self _ _
        · exact List.mem_cons_of_mem _ (ih seg (hs ▸ List.mem_cons_of_mem _ h) c hc)

theorem joinLines_splitOnChar : ∀ l : List Char,
    joinLines (splitOnChar '\n' l) = l := by
  intro l
  induction l with
  | nil => rfl
  | cons c rest ih =>
    unfold splitOnChar
    by_cases hc : c = '\n'
    · simp only [hc, if_true]
      cases hs : splitOnChar '\n' rest with
      | nil => exact absurd hs (splitOnChar_ne_nil '\n' rest)
      | cons s t =>
        rw [hs] at ih
        rw [joinLines]
        simpa using ih
    · simp only [hc, if_false]
      cases hs : splitOnChar '\n' rest with
      | nil => exact absurd hs (splitOnChar_ne_nil '\n' rest)
      | cons s t =>
        rw [hs] at ih
        cases t with
        | nil => rw [joinLines]; rw [joinLines] at ih; simp [ih]
        | cons t0 t' =>
          rw [joinLines]
          rw [joinLines] at ih
          simpa using ih

theorem trim_end_matches_cr_eq (l : List Char) (h : '\r' ∉ l) :
    trim_end_matches_cr l = l := by
  unfold trim_end_matches_cr
  suffices hs : l.reverse.dropWhile (fun c => c = '\r') = l.reverse by
    rw [hs, List.reverse_reverse]
  cases hrev : l.reverse with
  | nil => rfl
  | cons c t =>
    rw [List.dropWhile_cons]
    have hcl : c ∈ l := by
      rw [← List.mem_reverse, hrev]; exact List.mem_cons_self _ _
    have : ¬(c = '\r') := fun hc => h (hc ▸ hcl)
    simp [this]

theorem from_text_line_count (text : List Char) :
    1 ≤ (from_text text).line_count := by
  unfold from_text
  dsimp only
  split
  · simp [line_count]
  · rename_i hne
    have := splitOnChar_ne_nil '\n' text
    simp only [line_count]
    cases hs : splitOnChar '\n' text with
    | nil => exact absurd hs this
    | cons s t => simp [hs]

theorem length_insertAt_of_le {α : Type} (xs : List α) (i : Nat) (x : α)
    (h : i ≤ xs.length) : (insertAt xs i x).length = xs.length + 1 := by
  unfold insertAt
  simp only [List.length_append, List.length_cons, List.length_take,
    List.length_drop]
  omega

theorem one_le_length_insertAt {α : Type} (xs : List α) (i : Nat) (x : α) :
    1 ≤ (insertAt xs i x).length := by
  unfold insertAt
  simp only [List.length_append, List.length_cons]
  omega

theorem length_removeAt_of_lt {α : Type} (xs : List α) (i : Nat)
    (h : i < xs.length) : (removeAt xs i).length = xs.length - 1 := by
  unfold removeAt
  simp only [List.length_append, List.length_take, List.length_drop]
  omega

theorem getElem?_insertAt_self {α : Type} (xs : List α) (i : Nat) (x : α)
    (h : i ≤ xs.length) : (insertAt xs i x)[i]? = some x := by
  unfold insertAt
  have h1 : (xs.take i).length = i := by simp; omega
  rw [List.getElem?_append_right (le_of_eq h1), h1]
  simp

theorem removeAt_insertAt {α : Type} (xs : List α) (i : Nat) (x : α)
    (h : i ≤ xs.length) : removeAt (insertAt xs i x) i = xs := by
  unfold removeAt insertAt
  have h1 : (xs.take i).length = i := by simp; omega
  rw [List.take_append_of_le_length (le_of_eq h1.symm), List.take_take]
  rw [List.drop_append_eq_append_drop]
  rw [List.drop_eq_nil_of_le (by omega), h1]
  have h2 : i + 1 - i = 1 := by omega
  rw [h2]
  simp [List.take_append_drop]

theorem getElem?_removeAt_of_lt {α : Type} (xs : List α) (i j : Nat)
    (hj : j < i) (hi : i ≤ xs.length) : (removeAt xs i)[j]? = xs[j]? := by
  unfold removeAt
  rw [List.getElem?_append_left (by simp; omega)]
  rw [List.getElem?_take, if_pos hj]

theorem set_self_of_getElem? {α : Type} :
    ∀ (xs : List α) (i : Nat) (x : α), xs[i]? = some x → xs.set i x = xs := by
  intro xs
  induction xs with
  | nil => intro i x h; simp at h
  | cons a t ih =>
    intro i x h
    cases i with
    | zero => simp at h; simp [h]
    | succ j =>
      simp only [List.getElem?_cons_succ] at h
      simp [List.set, ih j x h]

theorem line_len_chars_eq (d : Document) (i : Nat) :
    d.line_len_chars i = ((d.lines[i]?).getD []).length := by
  unfold line_len_chars line char_count
  cases d.lines[i]? <;> simp

theorem insert_char_spec (d : Document) (p : Position) (ch : Char)
    (h : 1 ≤ d.line_count) :
    (d.insert_char p ch).1.line_count = d.line_count ∧
      ValidPos (d.insert_char p ch).1 (d.insert_char p ch).2 := by
  obtain ⟨hl, hc⟩ := d.clamp_position_valid p h
  rw [line_len_chars_eq] at hc
  unfold line_count at hl
  unfold insert_char
  dsimp only
  refine ⟨?_, ?_, ?_⟩
  · simp [line_count]
  · simpa [line_count] using hl
  · rw [line_len_chars_eq]
    dsimp only
    rw [List.getElem?_set_self hl]
    simp only [Option.getD_some, List.length_append, List.length_cons,
      List.length_take, List.length_drop]
    unfold char_to_byte_index
    omega

theorem insert_newline_spec (d : Document) (p : Position)
    (h : 1 ≤ d.line_count) :
    (d.insert_newline p).1.line_count = d.line_count + 1 ∧
      ValidPos (d.insert_newline p).1 (d.insert_newline p).2 := by
  obtain ⟨hl, hc⟩ := d.clamp_position_valid p h
  unfold line_count at hl
  unfold insert_newline
  dsimp only
  have hcount : (insertAt
      (d.lines.set (d.clamp_position p).line
        (((d.lines[(d.clamp_position p).line]?).getD []).take
          (char_to_byte_index ((d.lines[(d.clamp_position p).line]?).getD [])
            (d.clamp_position p).column)))
      ((d.clamp_position p).line + 1)
      (((d.lines[(d.clamp_position p).line]?).getD []).drop
        (char_to_byte_index ((d.lines[(d.clamp_position p).line]?).getD [])
          (d.clamp_position p).column))).length = d.lines.length + 1 := by
    rw [length_insertAt_of_le]
    · simp
    · simp; omega
  refine ⟨?_, ?_, ?_⟩
  · simpa [line_count] using hcount
  · simp only [line_count]
    rw [hcount]
    omega
  · exact Nat.zero_le _

theorem backspace_spec (d : Document) (p : Position) (h : 1 ≤ d.line_count) :
    1 ≤ (d.backspace p).1.line_count ∧
      ValidPos (d.backspace p).1 (d.backspace p).2 := by
  obtain ⟨hl, hc⟩ := d.clamp_position_valid p h
  rw [line_len_chars_eq] at hc
  unfold line_count at hl
  unfold backspace
  dsimp only
  split
  · refine ⟨by simpa [line_count] using h, by simpa [line_count] using hl, ?_⟩
    rw [line_len_chars_eq]
    dsimp only
    rw [List.getElem?_set_self hl]
    simp only [Option.getD_some, List.length_append, List.length_take,
      List.length_drop]
    unfold char_to_byte_index
    omega
  · split
    · exact ⟨h, hl, by rw [line_len_chars_eq]; exact hc⟩
    · rename_i hcol hline
      have hline1 : 1 ≤ (d.clamp_position p).line := Nat.one_le_iff_ne_zero.mpr hline
      have hrest : (removeAt d.lines (d.clamp_position p).line).length =
          d.lines.length - 1 := length_removeAt_of_lt _ _ hl
      refine ⟨?_, ?_, ?_⟩
      · simp only [line_count, List.length_set, hrest]
        omega
      · simp only [line_count, List.length_set, hrest]
        omega
      · rw [line_len_chars_eq]
        dsimp only
        rw [List.getElem?_set_self (by rw [hrest]; omega)]
        simp [char_count]

theorem delete_spec (d : Document) (p : Position) (h : 1 ≤ d.line_count) :
    1 ≤ (d.delete p).1.line_count ∧
      ValidPos (d.delete p).1 (d.delete p).2 := by
  obtain ⟨hl, hc⟩ := d.clamp_position_valid p h
  rw [line_len_chars_eq] at hc
  unfold line_count at hl
  unfold delete
  dsimp only
  split
  · rename_i hcol
    rw [line_len_chars_eq] at hcol
    refine ⟨by simpa [line_count] using h, by simpa [line_count] using hl, ?_⟩
    rw [line_len_chars_eq]
    dsimp only
    rw [List.getElem?_set_self hl]
    simp only [Option.getD_some, List.length_append, List.length_take,
      List.length_drop]
    unfold char_to_byte_index
    omega
  · split
    · exact ⟨h, hl, by rw [line_len_chars_eq]; exact hc⟩
    · rename_i hcol hnext
      unfold line_count at hnext
      have hnext' : (d.clamp_position p).line + 1 < d.lines.length := by omega
      have hrest : (removeAt d.lines ((d.clamp_position p).line + 1)).length =
          d.lines.length - 1 := length_removeAt_of_lt _ _ hnext'
      refine ⟨?_, ?_, ?_⟩
      · simp only [line_count, List.length_set, hrest]
        omega
      · simp only [line_count, List.length_set, hrest]
        omega
      · rw [line_len_chars_eq]
        dsimp only
        rw [List.getElem?_set_self (by rw [hrest]; omega)]
        rw [getElem?_removeAt_of_lt _ _ _ (by omega) (by omega)]
        simp only [Option.getD_some, List.length_append]
        rw [line_len_chars_eq] at hcol
        omega

theorem insert_text_fold_spec :
    ∀ (input : List Char) (dp : Document × Position),
      1 ≤ dp.1.line_count → ValidPos dp.1 dp.2 →
      1 ≤ (input.foldl insert_text_step dp).1.line_count ∧
        ValidPos (input.foldl insert_text_step dp).1
          (input.foldl insert_text_step dp).2 := by
  intro input
  induction input with
  | nil => intro dp h hv; exact ⟨h, hv⟩
  | cons ch rest ih =>
    intro dp h hv
    rw [List.foldl_cons]
    apply ih
    · unfold insert_text_step
      split
      · have := (insert_newline_spec dp.1 dp.2 h).1
        omega
      · have := (insert_char_spec dp.1 dp.2 ch h).1
        omega
    · unfold insert_text_step
      split
      · exact (insert_newline_spec dp.1 dp.2 h).2
      · exact (insert_char_spec dp.1 dp.2 ch h).2

theorem insert_text_spec (d : Document) (p : Position) (input : List Char)
    (h : 1 ≤ d.line_count) :
    1 ≤ (d.insert_text p input).1.line_count ∧
      ValidPos (d.insert_text p input).1 (d.insert_text p input).2 := by
  unfold insert_text
  dsimp only
  exact insert_text_fold_spec input (d, d.clamp_position p) h
    (d.clamp_position_valid p h)

theorem move_left_valid (d : Document) (p : Position) (hv : ValidPos d p) :
    ValidPos d (d.move_left p) := by
  obtain ⟨hl, hc⟩ := hv
  unfold move_left
  split
  · exact ⟨hl, show p.column - 1 ≤ d.line_len_chars p.line by omega⟩
  split
  · exact ⟨hl, hc⟩
  · exact ⟨show p.line - 1 < d.line_count by omega, le_refl _⟩

theorem move_right_valid (d : Document) (p : Position) (hv : ValidPos d p) :
    ValidPos d (d.move_right p) := by
  obtain ⟨hl, hc⟩ := hv
  unfold move_right
  dsimp only
  split
  · rename_i hlt
    exact ⟨hl, show p.column + 1 ≤ d.line_len_chars p.line by omega⟩
  split
  · rename_i hnext
    exact ⟨hnext, Nat.zero_le _⟩
  · exact ⟨hl, hc⟩

theorem move_up_valid (d : Document) (p : Position) (pref : Nat)
    (hv : ValidPos d p) : ValidPos d (d.move_up p pref) := by
  obtain ⟨hl, hc⟩ := hv
  unfold move_up
  split
  · exact ⟨hl, hc⟩
  · exact ⟨show p.line - 1 < d.line_count by omega, min_le_right _ _⟩

theorem move_down_valid (d : Document) (p : Position) (pref : Nat)
    (hv : ValidPos d p) : ValidPos d (d.move_down p pref) := by
  obtain ⟨hl, hc⟩ := hv
  unfold move_down
  dsimp only
  split
  · exact ⟨hl, hc⟩
  · rename_i hnext
    exact ⟨show p.line + 1 < d.line_count by omega, min_le_right _ _⟩

end Document

/-- C1 counterexample: `move_left` does not clamp its input position: on the
fresh one-empty-line document, moving left from the out-of-range position
(line 0, column 5) returns (line 0, column 4), whose column exceeds the line
length 0 — not a valid address, refuting the claim for the navigation
operations. -/
theorem C1_counterexample :
    ¬ ValidPos Document.new (Document.new.move_left ⟨0, 5⟩) := by decide

/-- C1 amended: every mutation operation (`insert_char`, `insert_text`,
`insert_newline`, `backspace`, `delete`) clamps its input position first and
returns a valid address into the resulting document; the navigation
operations (`move_left`, `move_right`, `move_up`, `move_down`) do not clamp
out-of-range input, but they map every valid position to a valid position. -/
theorem C1_positions_stay_valid (d : Document) (p : Position) (ch : Char)
    (input : List Char) (pref : Nat) (h : 1 ≤ d.line_count) :
    ValidPos (d.insert_char p ch).1 (d.insert_char p ch).2 ∧
    ValidPos (d.insert_text p input).1 (d.insert_text p input).2 ∧
    ValidPos (d.insert_newline p).1 (d.insert_newline p).2 ∧
    ValidPos (d.backspace p).1 (d.backspace p).2 ∧
    ValidPos (d.delete p).1 (d.delete p).2 ∧
    (ValidPos d p →
      ValidPos d (d.move_left p) ∧ ValidPos d (d.move_right p) ∧
      ValidPos d (d.move_up p pref) ∧ ValidPos d (d.move_down p pref)) :=
  ⟨(d.insert_char_spec p ch h).2, (d.insert_text_spec p input h).2,
    (d.insert_newline_spec p h).2, (d.backspace_spec p h).2,
    (d.delete_spec p h).2,
    fun hv => ⟨d.move_left_valid p hv, d.move_right_valid p hv,
      d.move_up_valid p pref hv, d.move_down_valid p pref hv⟩⟩

theorem C1_witness :
    1 ≤ (Document.from_text "ab\ncd".toList).line_count ∧
    (ValidPos ((Document.from_text "ab\ncd".toList).insert_char ⟨0, 9⟩ 'x').1
        ((Document.from_text "ab\ncd".toList).insert_char ⟨0, 9⟩ 'x').2 ∧
      ValidPos
        ((Document.from_text "ab\ncd".toList).insert_text ⟨0, 9⟩ "e\nf".toList).1
        ((Document.from_text "ab\ncd".toList).insert_text ⟨0, 9⟩ "e\nf".toList).2 ∧
      ValidPos ((Document.from_text "ab\ncd".toList).insert_newline ⟨0, 9⟩).1
        ((Document.from_text "ab\ncd".toList).insert_newline ⟨0, 9⟩).2 ∧
      ValidPos ((Document.from_text "ab\ncd".toList).backspace ⟨0, 9⟩).1
        ((Document.from_text "ab\ncd".toList).backspace ⟨0, 9⟩).2 ∧
      ValidPos ((Document.from_text "ab\ncd".toList).delete ⟨0, 9⟩).1
        ((Document.from_text "ab\ncd".toList).delete ⟨0, 9⟩).2 ∧
      (ValidPos (Document.from_text "ab\ncd".toList) ⟨0, 9⟩ →
        ValidPos (Document.from_text "ab\ncd".toList)
            ((Document.from_text "ab\ncd".toList).move_left ⟨0, 9⟩) ∧
          ValidPos (Document.from_text "ab\ncd".toList)
            ((Document.from_text "ab\ncd".toList).move_right ⟨0, 9⟩) ∧
          ValidPos (Document.from_text "ab\ncd".toList)
            ((Document.from_text "ab\ncd".toList).move_up ⟨0, 9⟩ 3) ∧
          ValidPos (Document.from_text "ab\ncd".toList)
            ((Document.from_text "ab\ncd".toList).move_down ⟨0, 9⟩ 3))) :=
  ⟨by decide,
    C1_positions_stay_valid (Document.from_text "ab\ncd".toList) ⟨0, 9⟩ 'x'
      "e\nf".toList 3 (by decide)⟩

/-- C5: the document's line sequence is never empty: `new` and `from_text`
produce at least one line (for any input text), and every mutation preserves
`line_count ≥ 1`. -/
theorem C5_line_count_ge_one :
    1 ≤ Document.new.line_count ∧
    (∀ text : List Char, 1 ≤ (Document.from_text text).line_count) ∧
    ∀ (d : Document) (p : Position) (ch : Char) (input : List Char),
      1 ≤ d.line_count →
      1 ≤ (d.insert_char p ch).1.line_count ∧
      1 ≤ (d.insert_text p input).1.line_count ∧
      1 ≤ (d.insert_newline p).1.line_count ∧
      1 ≤ (d.backspace p).1.line_count ∧
      1 ≤ (d.delete p).1.line_count := by
  refine ⟨by decide, Document.from_text_line_count, ?_⟩
  intro d p ch input h
  refine ⟨?_, ?_, ?_, ?_, ?_⟩
  · rw [(d.insert_char_spec p ch h).1]
    exact h
  · exact (d.insert_text_spec p input h).1
  · rw [(d.insert_newline_spec p h).1]
    omega
  · exact (d.backspace_spec p h).1
  · exact (d.delete_spec p h).1

theorem C5_witness :
    1 ≤ Document.new.line_count ∧
    (1 ≤ (Document.new.insert_char ⟨0, 0⟩ 'x').1.line_count ∧
      1 ≤ (Document.new.insert_text ⟨0, 0⟩ "a\nb".toList).1.line_count ∧
      1 ≤ (Document.new.insert_newline ⟨0, 0⟩).1.line_count ∧
      1 ≤ (Document.new.backspace ⟨0, 0⟩).1.line_count ∧
      1 ≤ (Document.new.delete ⟨0, 0⟩).1.line_count) :=
  ⟨by decide,
    C5_line_count_ge_one.2.2 Document.new ⟨0, 0⟩ 'x' "a\nb".toList (by decide)⟩

/-- C7: for every text containing no `'\r'`, `from_text` then `to_text`
round-trips: splitting on `'\n'` and rejoining with `'\n'` is the identity,
with no trailing newline added or removed. -/
theorem C7_from_text_to_text_roundtrip (text : List Char) (h : '\r' ∉ text) :
    (Document.from_text text).to_text = text := by
  unfold Document.from_text
  have hmap : (Document.splitOnChar '\n' text).map Document.trim_end_matches_cr
      = Document.splitOnChar '\n' text := by
    have : ∀ seg ∈ Document.splitOnChar '\n' text,
        Document.trim_end_matches_cr seg = id seg := ?_
    · rw [List.map_congr_left this, List.map_id]
    intro seg hseg
    refine Document.trim_end_matches_cr_eq seg fun hcr => ?_
    exact absurd (Document.mem_of_mem_splitOnChar '\n' text seg hseg '\r' hcr)
      (by simpa using h)
  rw [hmap, if_neg (Document.splitOnChar_ne_nil '\n' text)]
  exact Document.joinLines_splitOnChar text

theorem C7_witness :
    '\r' ∉ "a\nb".toList ∧
      (Document.from_text "a\nb".toList).to_text = "a\nb".toList :=
  ⟨by decide, C7_from_text_to_text_roundtrip "a\nb".toList (by decide)⟩

namespace Document

theorem clamp_position_of_valid (d : Document) (p : Position)
    (hv : ValidPos d p) : d.clamp_position p = p := by
  obtain ⟨hl, hc⟩ := hv
  unfold clamp_position
  dsimp only
  rw [Nat.min_eq_left (show p.line ≤ d.line_count - 1 by omega),
    Nat.min_eq_left hc]

theorem getElem?_removeAt_of_ge {α : Type} (xs : List α) (i j : Nat)
    (hij : i ≤ j) (hi : i ≤ xs.length) : (removeAt xs i)[j]? = xs[j + 1]? := by
  unfold removeAt
  have h1 : (xs.take i).length = i := by simp; omega
  rw [List.getElem?_append_right (by rw [h1]; exact hij), h1,
    List.getElem?_drop]
  congr 1
  omega

/-- The heart of the `insert_newline`/`backspace` inverse pair: backspacing
at the start of the freshly created tail line re-joins the split line and
restores the pre-split cursor. -/
theorem newline_backspace_core (ls : List (List Char)) (i c : Nat)
    (L : List Char) (hi : ls[i]? = some L) (hc : c ≤ L.length) :
    Document.backspace ⟨insertAt (ls.set i (L.take c)) (i + 1) (L.drop c)⟩
        ⟨i + 1, 0⟩ =
      (⟨ls⟩, ⟨i, c⟩) := by
  have hi' : i < ls.length := by
    by_contra hcon
    rw [List.getElem?_eq_none (by omega)] at hi
    cases hi
  have hlen1 : (insertAt (ls.set i (L.take c)) (i + 1) (L.drop c)).length =
      ls.length + 1 := by
    rw [length_insertAt_of_le]
    · simp
    · simp
      omega
  unfold backspace
  dsimp only
  have hclamp :
      Document.clamp_position ⟨insertAt (ls.set i (L.take c)) (i + 1)
          (L.drop c)⟩ ⟨i + 1, 0⟩ = ⟨i + 1, 0⟩ := by
    apply clamp_position_of_valid
    refine ⟨?_, Nat.zero_le _⟩
    show i + 1 < (insertAt (ls.set i (L.take c)) (i + 1) (L.drop c)).length
    rw [hlen1]
    omega
  rw [hclamp]
  dsimp only
  rw [if_neg (lt_irrefl 0), if_neg (Nat.succ_ne_zero i)]
  have hcur : (insertAt (ls.set i (L.take c)) (i + 1) (L.drop c))[i + 1]? =
      some (L.drop c) :=
    getElem?_insertAt_self _ _ _ (by simp; omega)
  have hrem : removeAt (insertAt (ls.set i (L.take c)) (i + 1) (L.drop c))
      (i + 1) = ls.set i (L.take c) :=
    removeAt_insertAt _ _ _ (by simp; omega)
  rw [hcur, hrem]
  simp only [Nat.add_sub_cancel, Option.getD_some]
  rw [List.getElem?_set_self (by simp [hi'])]
  simp only [Option.getD_some]
  rw [List.take_append_drop, List.set_set, set_self_of_getElem? ls i L hi]
  unfold char_count
  rw [List.length_take, Nat.min_eq_left hc]

end Document

/-- C8: for every document and every position, `insert_newline` followed by
`backspace` at the returned position restores the original document (the
split line is re-joined) and yields the original clamped position — in fact
with no boundary exception at all. -/
theorem C8_newline_backspace_inverse (d : Document) (p : Position)
    (h : 1 ≤ d.line_count) :
    ((d.insert_newline p).1.backspace (d.insert_newline p).2).1 = d ∧
      ((d.insert_newline p).1.backspace (d.insert_newline p).2).2 =
        d.clamp_position p := by
  obtain ⟨hl, hc⟩ := d.clamp_position_valid p h
  unfold Document.line_count at hl
  rw [Document.line_len_chars_eq] at hc
  have hL : d.lines[(d.clamp_position p).line]? =
      some ((d.lines[(d.clamp_position p).line]?).getD []) := by
    rw [List.getElem?_eq_getElem hl]
    rfl
  have hbyte : Document.char_to_byte_index
      ((d.lines[(d.clamp_position p).line]?).getD [])
      (d.clamp_position p).column = (d.clamp_position p).column := by
    unfold Document.char_to_byte_index
    omega
  have hstep : d.insert_newline p =
      (⟨Document.insertAt
          (d.lines.set (d.clamp_position p).line
            (((d.lines[(d.clamp_position p).line]?).getD []).take
              (d.clamp_position p).column))
          ((d.clamp_position p).line + 1)
          (((d.lines[(d.clamp_position p).line]?).getD []).drop
            (d.clamp_position p).column)⟩,
        ⟨(d.clamp_position p).line + 1, 0⟩) := by
    unfold Document.insert_newline
    dsimp only
    rw [hbyte]
  rw [hstep]
  dsimp only
  rw [Document.newline_backspace_core d.lines (d.clamp_position p).line
    (d.clamp_position p).column ((d.lines[(d.clamp_position p).line]?).getD [])
    hL hc]
  exact ⟨rfl, rfl⟩

theorem C8_witness :
    1 ≤ (Document.from_text "hello".toList).line_count ∧
    ((((Document.from_text "hello".toList).insert_newline ⟨0, 2⟩).1.backspace
          ((Document.from_text "hello".toList).insert_newline ⟨0, 2⟩).2).1 =
        Document.from_text "hello".toList ∧
      (((Document.from_text "hello".toList).insert_newline ⟨0, 2⟩).1.backspace
          ((Document.from_text "hello".toList).insert_newline ⟨0, 2⟩).2).2 =
        (Document.from_text "hello".toList).clamp_position ⟨0, 2⟩) :=
  ⟨by decide,
    C8_newline_backspace_inverse (Document.from_text "hello".toList) ⟨0, 2⟩
      (by decide)⟩

/-- C9: `delete` at the last column of a non-final line merges the next line
in, returning the same position; `backspace` at column 0 of a non-first line
merges the current line into the previous one, returning the previous line's
old end; `backspace` at (0,0) and `delete` at the end of the last line leave
document and position unchanged. -/
theorem C9_boundary_merges (d : Document) :
    (∀ l : Nat, l + 1 < d.line_count →
      (d.delete ⟨l, d.line_len_chars l⟩).1.line_count = d.line_count - 1 ∧
      (d.delete ⟨l, d.line_len_chars l⟩).1.line l =
        some ((d.lines[l]?).getD [] ++ (d.lines[l + 1]?).getD []) ∧
      (∀ j, j < l → (d.delete ⟨l, d.line_len_chars l⟩).1.line j = d.line j) ∧
      (∀ j, l < j →
        (d.delete ⟨l, d.line_len_chars l⟩).1.line j = d.line (j + 1)) ∧
      (d.delete ⟨l, d.line_len_chars l⟩).2 = ⟨l, d.line_len_chars l⟩) ∧
    (∀ l : Nat, 0 < l → l < d.line_count →
      (d.backspace ⟨l, 0⟩).1.line_count = d.line_count - 1 ∧
      (d.backspace ⟨l, 0⟩).1.line (l - 1) =
        some ((d.lines[l - 1]?).getD [] ++ (d.lines[l]?).getD []) ∧
      (∀ j, j < l - 1 → (d.backspace ⟨l, 0⟩).1.line j = d.line j) ∧
      (∀ j, l - 1 < j → (d.backspace ⟨l, 0⟩).1.line j = d.line (j + 1)) ∧
      (d.backspace ⟨l, 0⟩).2 = ⟨l - 1, d.line_len_chars (l - 1)⟩) ∧
    (1 ≤ d.line_count → d.backspace ⟨0, 0⟩ = (d, ⟨0, 0⟩)) ∧
    (1 ≤ d.line_count →
      d.delete ⟨d.line_count - 1, d.line_len_chars (d.line_count - 1)⟩ =
        (d, ⟨d.line_count - 1, d.line_len_chars (d.line_count - 1)⟩)) := by
  refine ⟨?_, ?_, ?_, ?_⟩
  · intro l hl1
    have hl : l + 1 < d.lines.length := hl1
    have hcl : d.clamp_position ⟨l, d.line_len_chars l⟩ =
        ⟨l, d.line_len_chars l⟩ :=
      d.clamp_position_of_valid _ ⟨show l < d.line_count by omega, le_refl _⟩
    unfold Document.delete
    dsimp only
    rw [hcl]
    dsimp only
    rw [if_neg (lt_irrefl _), if_neg (show ¬(d.line_count ≤ l + 1) by omega)]
    have hrest_len : (Document.removeAt d.lines (l + 1)).length =
        d.lines.length - 1 :=
      Document.length_removeAt_of_lt _ _ (by omega)
    have hrl : (Document.removeAt d.lines (l + 1))[l]? = d.lines[l]? :=
      Document.getElem?_removeAt_of_lt _ _ _ (by omega) (by omega)
    refine ⟨?_, ?_, ?_, ?_, rfl⟩
    · simp only [Document.line_count, List.length_set, hrest_len]
    · unfold Document.line
      dsimp only
      rw [List.getElem?_set_self (by rw [hrest_len]; omega), hrl]
    · intro j hj
      unfold Document.line
      dsimp only
      rw [List.getElem?_set_ne (by omega)]
      exact Document.getElem?_removeAt_of_lt _ _ _ (by omega) (by omega)
    · intro j hj
      unfold Document.line
      dsimp only
      rw [List.getElem?_set_ne (by omega)]
      exact Document.getElem?_removeAt_of_ge _ _ _ (by omega) (by omega)
  · intro l hl0 hlc
    have hl : l < d.lines.length := hlc
    have hcl : d.clamp_position ⟨l, 0⟩ = ⟨l, 0⟩ :=
      d.clamp_position_of_valid _ ⟨hlc, Nat.zero_le _⟩
    unfold Document.backspace
    dsimp only
    rw [hcl]
    dsimp only
    rw [if_neg (lt_irrefl 0), if_neg (show ¬(l = 0) by omega)]
    have hrest_len : (Document.removeAt d.lines l).length =
        d.lines.length - 1 :=
      Document.length_removeAt_of_lt _ _ (by omega)
    have hrl : (Document.removeAt d.lines l)[l - 1]? = d.lines[l - 1]? :=
      Document.getElem?_removeAt_of_lt _ _ _ (by omega) (by omega)
    refine ⟨?_, ?_, ?_, ?_, ?_⟩
    · simp only [Document.line_count, List.length_set, hrest_len]
    · unfold Document.line
      dsimp only
      rw [List.getElem?_set_self (by rw [hrest_len]; omega), hrl]
    · intro j hj
      unfold Document.line
      dsimp only
      rw [List.getElem?_set_ne (by omega)]
      exact Document.getElem?_removeAt_of_lt _ _ _ (by omega) (by omega)
    · intro j hj
      unfold Document.line
      dsimp only
      rw [List.getElem?_set_ne (by omega)]
      have : (Document.removeAt d.lines l)[j]? = d.lines[j + 1]? :=
        Document.getElem?_removeAt_of_ge _ _ _ (by omega) (by omega)
      exact this
    · rw [hrl]
      rw [Document.line_len_chars_eq]
      rfl
  · intro h
    unfold Document.backspace
    dsimp only
    rw [d.clamp_position_of_valid ⟨0, 0⟩
      ⟨show (0 : Nat) < d.line_count by omega, Nat.zero_le _⟩]
    dsimp only
    rw [if_neg (lt_irrefl 0), if_pos rfl]
  · intro h
    unfold Document.delete
    dsimp only
    rw [d.clamp_position_of_valid
      ⟨d.line_count - 1, d.line_len_chars (d.line_count - 1)⟩
      ⟨show d.line_count - 1 < d.line_count by omega, le_refl _⟩]
    dsimp only
    rw [if_neg (lt_irrefl _), if_pos (show d.line_count ≤ d.line_count - 1 + 1 by omega)]

theorem C9_witness :
    (((Document.from_text "ab\ncd\nef".toList).delete
          ⟨0, (Document.from_text "ab\ncd\nef".toList).line_len_chars 0⟩).1.line_count =
        (Document.from_text "ab\ncd\nef".toList).line_count - 1 ∧
      ((Document.from_text "ab\ncd\nef".toList).delete
          ⟨0, (Document.from_text "ab\ncd\nef".toList).line_len_chars 0⟩).1.line 0 =
        some (((Document.from_text "ab\ncd\nef".toList).lines[0]?).getD [] ++
          ((Document.from_text "ab\ncd\nef".toList).lines[1]?).getD []) ∧
      (∀ j, j < 0 →
        ((Document.from_text "ab\ncd\nef".toList).delete
            ⟨0, (Document.from_text "ab\ncd\nef".toList).line_len_chars 0⟩).1.line j =
          (Document.from_text "ab\ncd\nef".toList).line j) ∧
      (∀ j, 0 < j →
        ((Document.from_text "ab\ncd\nef".toList).delete
            ⟨0, (Document.from_text "ab\ncd\nef".toList).line_len_chars 0⟩).1.line j =
          (Document.from_text "ab\ncd\nef".toList).line (j + 1)) ∧
      ((Document.from_text "ab\ncd\nef".toList).delete
          ⟨0, (Document.from_text "ab\ncd\nef".toList).line_len_chars 0⟩).2 =
        ⟨0, (Document.from_text "ab\ncd\nef".toList).line_len_chars 0⟩) ∧
    ((Document.from_text "ab\ncd\nef".toList).backspace ⟨0, 0⟩ =
      (Document.from_text "ab\ncd\nef".toList, ⟨0, 0⟩)) :=
  ⟨(C9_boundary_merges (Document.from_text "ab\ncd\nef".toList)).1 0 (by decide),
    (C9_boundary_merges (Document.from_text "ab\ncd\nef".toList)).2.2.1 (by decide)⟩

theorem rust_char_to_uppercase_ascii (c : Char) (h : c.toNat < 128) :
    rust_char_to_uppercase c = [c.toUpper] := by
  unfold rust_char_to_uppercase
  repeat' rw [if_neg (show ¬_ by omega)]

theorem rust_to_uppercase_length_ascii :
    ∀ l : List Char, (∀ ch ∈ l, ch.toNat < 128) →
      (rust_to_uppercase l).length = l.length := by
  intro l
  induction l with
  | nil => intro _; rfl
  | cons c t ih =>
    intro h
    have ht := ih fun ch hch => h ch (List.mem_cons_of_mem c hch)
    unfold rust_to_uppercase at ht ⊢
    rw [List.map_cons, List.flatten_cons, List.length_append,
      rust_char_to_uppercase_ascii c (h c (List.mem_cons_self c t)), ht]
    simp [Nat.add_comm]

/-- C4 counterexample: recasing can change the character count.  For the
character-cue line "ß", `processed_text` uppercases to "SS" (Rust
`str::to_uppercase`), so its length is indent + 2, not indent + raw length
(= indent + 1) — the processed-column offset add does not locate the
equivalent character for such text. -/
theorem C4_counterexample :
    ¬ ((ParsedLine.processed_text ⟨.Character, "ß".toList⟩).length =
        ParsedLine.indent_width ⟨.Character, "ß".toList⟩ +
          "ß".toList.length) := by decide

/-- C4 amended: `processed_text` is indent spaces plus the raw text
(uppercased for SceneHeading/Transition/Character, unchanged otherwise), and
`processed_column` is the pure offset add `indent_width + c` by definition —
but recasing preserves the character count (making the offset add locate the
equivalent character) only for text whose characters have single-character
uppercase mappings, e.g. all-ASCII raw text; it is not count-preserving in
general (ß → SS). -/
theorem C4_processed_text_and_column (pl : ParsedLine) (c : Nat) :
    pl.processed_text = List.replicate pl.indent_width ' ' ++
      (if pl.kind = .SceneHeading ∨ pl.kind = .Transition ∨
          pl.kind = .Character
        then rust_to_uppercase pl.raw else pl.raw) ∧
    pl.processed_column c = pl.indent_width + c ∧
    ((∀ ch ∈ pl.raw, ch.toNat < 128) →
      pl.processed_text.length = pl.indent_width + pl.raw.length) := by
  refine ⟨?_, rfl, ?_⟩
  · rcases pl with ⟨k, raw⟩
    cases k <;> simp [ParsedLine.processed_text]
  · intro h
    have hlen := rust_to_uppercase_length_ascii pl.raw h
    rcases pl with ⟨k, raw⟩
    cases k <;>
      simp_all [ParsedLine.processed_text, ParsedLine.indent_width] <;>
      omega

theorem C4_witness :
    (∀ ch ∈ "SARAH".toList, ch.toNat < 128) ∧
    (ParsedLine.processed_text ⟨.Character, "SARAH".toList⟩).length =
      ParsedLine.indent_width ⟨.Character, "SARAH".toList⟩ +
        "SARAH".toList.length :=
  ⟨by decide,
    (C4_processed_text_and_column ⟨.Character, "SARAH".toList⟩ 0).2.2
      (by decide)⟩

theorem parseLines_raw (ls : List (List Char)) :
    ∀ (prev : LineKind) (i : Nat) (pl : ParsedLine),
      (parseLines prev ls)[i]? = some pl → ls[i]? = some pl.raw := by
  induction ls with
  | nil => intro prev i pl h; simp [parseLines] at h
  | cons l rest ih =>
    intro prev i pl h
    rw [parseLines] at h
    cases i with
    | zero =>
      rw [List.getElem?_cons_zero] at h ⊢
      cases h
      rfl
    | succ j =>
      rw [List.getElem?_cons_succ] at h ⊢
      exact ih _ j pl h

theorem is_scene_heading_paren (t : List Char) :
    is_scene_heading ('(' :: t) = false := by
  unfold is_scene_heading
  dsimp only
  have h1 : rust_trim_start ('(' :: t) = '(' :: t := by
    unfold rust_trim_start
    rw [List.dropWhile_cons, if_neg (by decide)]
  have h2 : rust_to_uppercase ('(' :: t) = '(' :: rust_to_uppercase t := by
    unfold rust_to_uppercase
    rw [List.map_cons, List.flatten_cons,
      show rust_char_to_uppercase '(' = ['('] from by decide]
    rfl
  rw [h1, h2]
  simp only [List.any_cons, List.any_nil,
    show "INT.".toList = 'I' :: ['N', 'T', '.'] from by decide,
    show "EXT.".toList = 'E' :: ['X', 'T', '.'] from by decide,
    show "EST.".toList = 'E' :: ['S', 'T', '.'] from by decide,
    show "INT/EXT.".toList = 'I' :: ['N', 'T', '/', 'E', 'X', 'T', '.']
      from by decide,
    show "I/E.".toList = 'I' :: ['/', 'E', '.'] from by decide,
    List.isPrefixOf_cons₂,
    show ('I' == '(') = false from by decide,
    show ('E' == '(') = false from by decide,
    Bool.false_and, Bool.or_false, Bool.false_or]

theorem is_transition_last_paren (l : List Char)
    (h : l.getLast? = some ')') : is_transition l = false := by
  obtain ⟨ys, rfl⟩ := List.getLast?_eq_some_iff.mp h
  unfold is_transition
  dsimp only
  have hup : rust_to_uppercase (ys ++ [')']) =
      rust_to_uppercase ys ++ [')'] := by
    unfold rust_to_uppercase
    rw [List.map_append, List.flatten_append,
      show List.map rust_char_to_uppercase [')'] = [[')']] from by decide]
    simp
  rw [hup]
  have hlast : (rust_to_uppercase ys ++ [')']).getLast? = some ')' :=
    List.getLast?_concat _
  simp only [Bool.or_eq_false_iff]
  refine ⟨⟨⟨?_, ?_⟩, ?_⟩, ?_⟩
  · rw [Bool.eq_false_iff]
    intro hsuf
    rw [List.isSuffixOf_iff_suffix] at hsuf
    obtain ⟨pre, hpre⟩ := hsuf
    have hg := congrArg List.getLast? hpre
    rw [hlast, List.getLast?_append,
      show " TO:".toList.getLast? = some ':' from by decide] at hg
    simp at hg
  · rw [decide_eq_false_iff_not]
    intro heq
    have hg := congrArg List.getLast? heq
    rw [hlast, show "CUT TO:".toList.getLast? = some ':' from by decide] at hg
    simp at hg
  · rw [decide_eq_false_iff_not]
    intro heq
    have hg := congrArg List.getLast? heq
    rw [hlast,
      show "FADE OUT.".toList.getLast? = some '.' from by decide] at hg
    simp at hg
  · rw [decide_eq_false_iff_not]
    intro heq
    have hg := congrArg List.getLast? heq
    rw [hlast,
      show "FADE TO BLACK.".toList.getLast? = some '.' from by decide] at hg
    simp at hg

theorem classify_line_paren_after_action (raw : List Char)
    (hhead : (rust_trim raw).head? = some '(')
    (hlast : (rust_trim raw).getLast? = some ')') :
    classify_line raw .Action =
      (if is_character (rust_trim raw) = true then LineKind.Character
        else LineKind.Action) := by
  have hne : rust_trim raw ≠ [] := by
    intro hn
    rw [hn] at hhead
    cases hhead
  have hsh : is_scene_heading (rust_trim raw) = false := by
    obtain ⟨ys, hys⟩ := List.head?_eq_some_iff.mp hhead
    rw [hys]
    exact is_scene_heading_paren ys
  have htr : is_transition (rust_trim raw) = false :=
    is_transition_last_paren _ hlast
  unfold classify_line
  rw [if_neg hne, if_neg (by rw [hsh]; simp), if_neg (by rw [htr]; simp)]
  by_cases hch : is_character (rust_trim raw) = true
  · rw [if_pos hch, if_pos hch]
  · rw [if_neg hch, if_neg hch, if_neg (by simp), if_neg (by simp)]

/-- C3 counterexample: a parenthetical-shaped line directly after an Action
line is not always classified Action: "(SMILING)" after the Action line
"foo." satisfies the character-cue rule (checked before the parenthetical
gate) and is classified Character. -/
theorem C3_counterexample :
    (rust_trim "(SMILING)".toList).head? = some '(' ∧
    (rust_trim "(SMILING)".toList).getLast? = some ')' ∧
    (parse_document ⟨["foo.".toList, "(SMILING)".toList]⟩).map
        ParsedLine.kind = [.Action, .Character] := by decide

/-- C3 amended: a parenthetical-shaped line directly after an Action line is
never classified Parenthetical — it is classified Character exactly when it
satisfies the character-cue rule, and falls through to Action otherwise. -/
theorem C3_paren_after_action_not_parenthetical (d : Document) (i : Nat)
    (raw : List Char) (pl_prev pl : ParsedLine)
    (hraw : d.lines[i + 1]? = some raw)
    (hprev : (parse_document d)[i]? = some pl_prev)
    (hprevk : pl_prev.kind = .Action)
    (hcur : (parse_document d)[i + 1]? = some pl)
    (hhead : (rust_trim raw).head? = some '(')
    (hlast : (rust_trim raw).getLast? = some ')') :
    pl.kind ≠ .Parenthetical ∧
      pl.kind = (if is_character (rust_trim raw) = true
        then LineKind.Character else LineKind.Action) := by
  unfold parse_document at hprev hcur
  obtain ⟨pl', h1, h2⟩ := parseLines_chain d.lines .Empty i pl hcur
  rw [hprev] at h1
  cases h1
  have hraw2 : d.lines[i + 1]? = some pl.raw :=
    parseLines_raw d.lines .Empty (i + 1) pl hcur
  rw [hraw] at hraw2
  injection hraw2 with hraw3
  rw [hprevk] at h2
  rw [← hraw3] at h2
  have hmain := classify_line_paren_after_action raw hhead hlast
  rw [← h2] at hmain
  refine ⟨?_, hmain⟩
  rw [hmain]
  split <;> simp

theorem C3_witness :
    (⟨["foo.".toList, "(smiling)".toList]⟩ : Document).lines[0 + 1]? =
        some "(smiling)".toList ∧
      (parse_document ⟨["foo.".toList, "(smiling)".toList]⟩)[0]? =
        some ⟨.Action, "foo.".toList⟩ ∧
      (parse_document ⟨["foo.".toList, "(smiling)".toList]⟩)[0 + 1]? =
        some ⟨.Action, "(smiling)".toList⟩ ∧
      ((⟨.Action, "(smiling)".toList⟩ : ParsedLine).kind ≠ .Parenthetical ∧
        (⟨.Action, "(smiling)".toList⟩ : ParsedLine).kind =
          (if is_character (rust_trim "(smiling)".toList) = true
            then LineKind.Character else LineKind.Action)) :=
  ⟨by decide, by decide, by decide,
    C3_paren_after_action_not_parenthetical
      ⟨["foo.".toList, "(smiling)".toList]⟩ 0 "(smiling)".toList
      ⟨.Action, "foo.".toList⟩ ⟨.Action, "(smiling)".toList⟩
      (by decide) (by decide) (by decide) (by decide) (by decide) (by decide)⟩

end BasScript
